import Mathlib

/-!
Verification development for `mini.py` (juztin/mini), a static-asset build
pipeline.  The definitions below are a shallow embedding of the Python
source: the glob matcher (`shutil.ignore_patterns` over `fnmatch`), the
path helpers it uses (`os.path.join`, `os.path.splitext`), the recursive
tree processor `_perform_utilproc`, the per-asset-class output handlers,
the stage wrappers (`minify_css`, `minify_js`, `minify_html`,
`gzip_content`) and the `build` orchestrator.

The program runs under Python 2 (2015-era code: `optparse`, byte-string
subprocess output written with `str(...)`, which is the identity on Python 2
byte strings).  Subprocess output and file contents are therefore modelled
as `String`.  Filesystem state and subprocess behaviour are modelled as
explicit parameters; side effects are modelled as an event trace.
-/

set_option maxRecDepth 4096

/-! ### Glob matching: embedding of `fnmatch.translate` semantics

`shutil.ignore_patterns(*patterns)` returns a callable that, given a
directory and its entry `names`, returns the set of names matching any of
the shell-glob `patterns` via `fnmatch.filter`.  `fnmatch` translates a
pattern to an anchored regex: `*` becomes `.*` (DOTALL), `?` any single
character, `[...]`/`[!...]` a (negated) character class; an unterminated
`[` is a literal.  On POSIX `os.path.normcase` is the identity, so matching
is case-sensitive. -/

/-- One member of a glob character class: a single character or a range. -/
inductive ClsItem where
  | single (c : Char)
  | range (lo hi : Char)
deriving DecidableEq, Repr

/-- A token of a translated glob pattern. -/
inductive GTok where
  | lit (c : Char)
  | anyChar
  | star
  | cls (neg : Bool) (items : List ClsItem)
deriving DecidableEq, Repr

/-- Character-class body parsing: regex class semantics, `a-b` is a range
when `-` is neither first nor last. -/
def parseClsItems : List Char → List ClsItem
  | [] => []
  | a :: '-' :: b :: rest => ClsItem.range a b :: parseClsItems rest
  | c :: rest => ClsItem.single c :: parseClsItems rest

/-- Split a character list at the first `']'`, returning the content before
it and the remainder after it; `none` when there is no `']'`. -/
def findClose : List Char → Option (List Char × List Char)
  | [] => none
  | ']' :: r => some ([], r)
  | c :: r =>
    match findClose r with
    | none => none
    | some (a, b) => some (c :: a, b)

/-- Scan a class body that follows `'['`, per `fnmatch.translate`: a leading
`'!'` negates; a `']'` directly after the (optional) `'!'` counts as content;
an unterminated class makes the `'['` a literal (`none`). -/
def scanCls (l : List Char) : Option (Bool × List ClsItem × List Char) :=
  let (neg, l1) :=
    match l with
    | '!' :: rest => (true, rest)
    | _ => (false, l)
  match l1 with
  | ']' :: rest2 =>
    match findClose rest2 with
    | none => none
    | some (content, after) => some (neg, parseClsItems (']' :: content), after)
  | _ =>
    match findClose l1 with
    | none => none
    | some (content, after) => some (neg, parseClsItems content, after)

/-- Fuel-driven tokenizer for glob patterns (fuel `≥` pattern length always
suffices: every step consumes at least one character). -/
def globTokensF : Nat → List Char → List GTok
  | 0, _ => []
  | _, [] => []
  | fuel + 1, '*' :: rest => GTok.star :: globTokensF fuel rest
  | fuel + 1, '?' :: rest => GTok.anyChar :: globTokensF fuel rest
  | fuel + 1, '[' :: rest =>
    match scanCls rest with
    | none => GTok.lit '[' :: globTokensF fuel rest
    | some (neg, items, rest2) => GTok.cls neg items :: globTokensF fuel rest2
  | fuel + 1, c :: rest => GTok.lit c :: globTokensF fuel rest

/-- Tokenize a glob pattern. -/
def globTokens (pat : List Char) : List GTok :=
  globTokensF pat.length pat

/-- Does character `c` belong to a class item? -/
def clsItemMatch (c : Char) : ClsItem → Bool
  | ClsItem.single d => c = d
  | ClsItem.range lo hi => lo ≤ c && c ≤ hi

/-- Does character `c` match a (possibly negated) character class? -/
def clsMatch (neg : Bool) (items : List ClsItem) (c : Char) : Bool :=
  if neg then !(items.any (clsItemMatch c)) else items.any (clsItemMatch c)

/-- Fuel-driven anchored matching of a token list against a character list
(fuel `≥ toks.length + s.length` always suffices: every step decreases the
sum). -/
def tokMatchF : Nat → List GTok → List Char → Bool
  | 0, _, _ => false
  | _ + 1, [], [] => true
  | _ + 1, [], _ :: _ => false
  | fuel + 1, GTok.star :: ps, [] => tokMatchF fuel ps []
  | fuel + 1, GTok.star :: ps, c :: cs =>
    tokMatchF fuel ps (c :: cs) || tokMatchF fuel (GTok.star :: ps) cs
  | _ + 1, GTok.anyChar :: _, [] => false
  | fuel + 1, GTok.anyChar :: ps, _ :: cs => tokMatchF fuel ps cs
  | _ + 1, GTok.cls _ _ :: _, [] => false
  | fuel + 1, GTok.cls neg items :: ps, c :: cs =>
    clsMatch neg items c && tokMatchF fuel ps cs
  | _ + 1, GTok.lit _ :: _, [] => false
  | fuel + 1, GTok.lit d :: ps, c :: cs => (d = c) && tokMatchF fuel ps cs

/-- `fnmatch.fnmatch name pat` (POSIX: `normcase` is the identity). -/
def fnmatchOne (pat name : String) : Bool :=
  let toks := globTokens pat.toList
  tokMatchF (toks.length + name.toList.length + 1) toks name.toList

/-- Does `name` match at least one pattern of the set? -/
def matchesAny (patterns : List String) (name : String) : Bool :=
  patterns.any (fun p => fnmatchOne p name)

/-- `fnmatch.filter(names, pat)`: the sublist of `names` matching `pat`. -/
def fnmatchFilter (names : List String) (pat : String) : List String :=
  names.filter (fun n => fnmatchOne pat n)

/-- The callable produced by `shutil.ignore_patterns(*patterns)` applied to
`names`: every name matching at least one pattern (the Python code builds a
`set`; only membership is ever used, so a list represents it). -/
def ignorePatterns (patterns names : List String) : List String :=
  patterns.foldl (fun acc p => acc ++ fnmatchFilter names p) []

theorem mem_ignorePatterns_aux (patterns names : List String) (n : String) :
    ∀ acc : List String,
      (n ∈ patterns.foldl (fun acc p => acc ++ fnmatchFilter names p) acc ↔
        n ∈ acc ∨ (n ∈ names ∧ matchesAny patterns n = true)) := by
  induction patterns with
  | nil =>
    intro acc
    simp [matchesAny]
  | cons p ps ih =>
    intro acc
    rw [List.foldl_cons, ih]
    simp only [List.mem_append, fnmatchFilter, List.mem_filter, matchesAny,
      List.any_cons, Bool.or_eq_true]
    tauto

/-- Membership in the matched set is: the name occurs among `names` and
matches at least one pattern. -/
theorem mem_ignorePatterns (patterns names : List String) (n : String) :
    n ∈ ignorePatterns patterns names ↔
      n ∈ names ∧ matchesAny patterns n = true := by
  rw [ignorePatterns, mem_ignorePatterns_aux]
  simp

/-! ### Path helpers: `os.path.join` and `os.path.splitext` (posixpath) -/

/-- Does the string begin with `/`? -/
def strHeadIsSlash (s : String) : Bool :=
  match s.toList with
  | '/' :: _ => true
  | _ => false

/-- Does the string end with `/`? -/
def strLastIsSlash (s : String) : Bool :=
  match s.toList.getLast? with
  | some '/' => true
  | _ => false

/-- `posixpath.join a b`: an absolute `b` replaces `a`; otherwise the parts
are separated by exactly one `/`. -/
def pyJoin (a b : String) : String :=
  if strHeadIsSlash b then b
  else if a = "" then b
  else if strLastIsSlash a then a ++ b
  else a ++ "/" ++ b

/-- Index of the last occurrence of `c` in `l`, or `-1` (mirroring
`str.rfind`). -/
def lastIdx (c : Char) : List Char → Int
  | [] => -1
  | x :: xs =>
    let r := lastIdx c xs
    if r ≥ 0 then r + 1 else if x = c then 0 else -1

/-- `posixpath.splitext` on a character list: split at the last dot that
comes after the last slash, provided the basename is not entirely dots up
to that point (leading dots of the basename never start an extension). -/
def splitextL (p : List Char) : List Char × List Char :=
  let sepIndex := lastIdx '/' p
  let dotIndex := lastIdx '.' p
  if dotIndex > sepIndex then
    let mid := (p.take dotIndex.toNat).drop (sepIndex + 1).toNat
    if mid.any (fun ch => ch ≠ '.') then
      (p.take dotIndex.toNat, p.drop dotIndex.toNat)
    else (p, [])
  else (p, [])

/-- `os.path.splitext` on strings. -/
def splitext (p : String) : String × String :=
  let r := splitextL p.toList
  (String.mk r.1, String.mk r.2)

/-- The characters of the basename (after the last `/`). -/
def basenameL (l : List Char) : List Char :=
  l.drop ((lastIdx '/' l) + 1).toNat

/-! ### Python string helpers -/

/-- Python 2 `str(...)` applied to a byte string is the identity (the code
writes `str(compressed_content)` where `compressed_content` is the captured
subprocess stdout). -/
def pyStr (s : String) : String := s

/-- Auxiliary for `str.splitlines` on Python 2 byte strings: line breaks are
`\n`, `\r` and the pair `\r\n`; a final fragment is kept only when it is
nonempty. -/
def splitlinesAux : List Char → List Char → List String
  | [], acc => if acc.isEmpty then [] else [String.mk acc.reverse]
  | '\r' :: '\n' :: rest, acc => String.mk acc.reverse :: splitlinesAux rest []
  | '\r' :: rest, acc => String.mk acc.reverse :: splitlinesAux rest []
  | '\n' :: rest, acc => String.mk acc.reverse :: splitlinesAux rest []
  | c :: rest, acc => splitlinesAux rest (c :: acc)

/-- Python 2 `str.splitlines()` (no `keepends`). -/
def pySplitlines (s : String) : List String :=
  splitlinesAux s.toList []

/-! ### Data model: filesystem, subprocess outcomes, events, results -/

/-- Outcome of `Popen(args, stdout=PIPE, stderr=PIPE)` + `communicate()`:
either the spawn itself raises `OSError` (missing executable, permission
error), or the process runs and yields an exit code, stdout and stderr. -/
inductive CmdOutcome where
  | spawnFail (msg : String)
  | run (returncode : Int) (stdout : String) (stderr : String)
deriving DecidableEq, Repr

mutual
/-- One filesystem entry as seen by the walk: a regular file or a
directory together with the behaviour of `os.listdir` on it. -/
inductive FSTree where
  | file (name : String) : FSTree
  | dir (name : String) (listing : FSListing) : FSTree

/-- Behaviour of `os.listdir` on a directory: it raises `IOError`/`OSError`
(`fail`) or returns the entries (`ok`). -/
inductive FSListing where
  | fail : FSListing
  | ok (entries : FSEntries) : FSListing

/-- A listing's entries, in directory order. -/
inductive FSEntries where
  | nil : FSEntries
  | cons (e : FSTree) (rest : FSEntries) : FSEntries
end

/-- The entry's name (one path component). -/
def FSTree.name : FSTree → String
  | .file n => n
  | .dir n _ => n

/-- `os.path.isdir` on the entry's path. -/
def FSTree.isDir : FSTree → Bool
  | .file _ => false
  | .dir _ _ => true

/-- The names returned by `os.listdir`, in order. -/
def FSEntries.names : FSEntries → List String
  | .nil => []
  | .cons e rest => e.name :: rest.names

/-- Build `FSEntries` from a list (convenience for concrete trees). -/
def mkEntries : List FSTree → FSEntries
  | [] => FSEntries.nil
  | e :: rest => FSEntries.cons e (mkEntries rest)

/-- Observable side effects of a run, in order of occurrence. -/
inductive Event where
  /-- `os.listdir(path)` was called. -/
  | listed (path : String)
  /-- verbose `cprint.warning('ignored: ', path)`. -/
  | warnIgnored (path : String)
  /-- verbose `cprint.warning('excluded: ', path)`. -/
  | warnExcluded (path : String)
  /-- verbose `cprint.ok(' '.join(args))`. -/
  | echoCmd (line : String)
  /-- `Popen(args)` was called for the file at `path`. -/
  | invoked (path : String) (args : List String)
  /-- `cprint.error('ERROR PROCESSING: ', path -> args)` and `print(stderr)`
  on a non-zero exit status. -/
  | procError (path : String) (args : List String) (stderr : String)
  /-- `print(stdout)` (verbose, no handler). -/
  | printedOut (s : String)
  /-- `print(err)` in the `except` clause. -/
  | printedErr (s : String)
  /-- A file write performed by an output handler: full new contents of
  the file at `path` (`open(..., 'w'/'wb')` truncates). -/
  | wrote (path : String) (content : String)
  /-- `cprint.info(msg)` from the orchestrator. -/
  | info (msg : String)
deriving DecidableEq, Repr

/-- The Python value returned by `_perform_utilproc`, or the exception that
escapes it: `noneRet` is the bare `return` (Python `None`), `tup` is the
`(bool, message)` pair, `exn` is an uncaught `IOError`/`OSError` (its
payload: the path or message involved). -/
inductive PyRes where
  | noneRet
  | tup (ok : Bool) (msg : Option String)
  | exn (e : String)
deriving DecidableEq, Repr

/-- Control outcome of one iteration of the entry loop: fall through to the
next entry, or return from the function. -/
inductive LoopCtl where
  | cont
  | earlyReturn (r : PyRes)
deriving DecidableEq, Repr

/-- An `on_cmd` output handler: given the entry path and the captured
stdout it yields the events it performs and, when it raises
`IOError` mid-way, the exception message. -/
def Handler := String → String → List Event × Option String

/-- Substitute the entry path for the `{FILENAME}` placeholder in the
command template (line 140 of mini.py). -/
def substArgs (cmdArgs : List String) (srcname : String) : List String :=
  cmdArgs.map (fun a => if a = "{FILENAME}" then srcname else a)

/-! ### The tree processor `_perform_utilproc` (src/mini.py lines 104-163)

The three mutually recursive functions below embed the body of
`_perform_utilproc`: `performUtilproc` is one call of the Python function
(include guard, `os.listdir`, pattern sets, loop); `performLoop` is the
`for name in names` loop; `processOne` is one loop iteration.  `exec` is
the environment's subprocess behaviour, keyed by the concrete argument
vector. -/

mutual
/-- One call of `_perform_utilproc`: returns the event trace and the
Python result (value returned, or exception escaping this frame — the
`os.listdir` call at line 109 is outside the `try`, so its failure
escapes). -/
def performUtilproc (exec : List String → CmdOutcome) (cmdArgs : List String)
    (onCmd : Option Handler) (includeArg : Option (List String))
    (ignoreArg : Option (List String)) (verbose : Bool)
    (src : String) (listing : FSListing) : List Event × PyRes :=
  match includeArg with
  | none => ([], PyRes.noneRet)
  | some inc =>
    match listing with
    | FSListing.fail => ([Event.listed src], PyRes.exn src)
    | FSListing.ok entries =>
      let names := entries.names
      let includeNames := ignorePatterns inc names
      let ignoreFiles :=
        match ignoreArg with
        | none => []
        | some ign => ignorePatterns ign names
      let r := performLoop exec cmdArgs onCmd (some inc) ignoreArg verbose
        src includeNames ignoreFiles entries
      (Event.listed src :: r.1, r.2)

/-- The `for name in names` loop: falling off the end returns
`(True, None)` (line 163). -/
def performLoop (exec : List String → CmdOutcome) (cmdArgs : List String)
    (onCmd : Option Handler) (includeArg : Option (List String))
    (ignoreArg : Option (List String)) (verbose : Bool)
    (src : String) (includeNames ignoreFiles : List String)
    (entries : FSEntries) : List Event × PyRes :=
  match entries with
  | FSEntries.nil => ([], PyRes.tup true none)
  | FSEntries.cons e rest =>
    let r := processOne exec cmdArgs onCmd includeArg ignoreArg verbose
      src includeNames ignoreFiles e
    match r.2 with
    | LoopCtl.earlyReturn res => (r.1, res)
    | LoopCtl.cont =>
      let r2 := performLoop exec cmdArgs onCmd includeArg ignoreArg verbose
        src includeNames ignoreFiles rest
      (r.1 ++ r2.1, r2.2)

/-- One iteration of the loop body (lines 119-161): ignore filter, include
filter for non-directories, recursion for directories (result discarded),
command invocation for files; `except (IOError, os.error)` catches any
exception raised inside the `try`, prints it, and returns `(False, msg)`
where `msg` is built by `"Failed to perform util on {0}: ".format(srcname,
str(err))` — the second argument is dropped by the format string. -/
def processOne (exec : List String → CmdOutcome) (cmdArgs : List String)
    (onCmd : Option Handler) (includeArg : Option (List String))
    (ignoreArg : Option (List String)) (verbose : Bool)
    (src : String) (includeNames ignoreFiles : List String)
    (e : FSTree) : List Event × LoopCtl :=
  let name := e.name
  if name ∈ ignoreFiles then
    ((if verbose then [Event.warnIgnored (pyJoin src name)] else []),
     LoopCtl.cont)
  else
    let srcname := pyJoin src name
    if e.isDir = false ∧ name ∉ includeNames then
      ((if verbose then [Event.warnExcluded srcname] else []), LoopCtl.cont)
    else
      match e with
      | FSTree.dir _ l =>
        let r := performUtilproc exec cmdArgs onCmd includeArg ignoreArg
          verbose srcname l
        match r.2 with
        | PyRes.exn m =>
          (r.1 ++ [Event.printedErr m],
           LoopCtl.earlyReturn (PyRes.tup false
             (some ("Failed to perform util on " ++ srcname ++ ": "))))
        | _ => (r.1, LoopCtl.cont)
      | FSTree.file _ =>
        let args := substArgs cmdArgs srcname
        let echo :=
          if verbose then [Event.echoCmd (String.intercalate " " args)]
          else []
        match exec args with
        | CmdOutcome.spawnFail m =>
          (echo ++ [Event.invoked srcname args, Event.printedErr m],
           LoopCtl.earlyReturn (PyRes.tup false
             (some ("Failed to perform util on " ++ srcname ++ ": "))))
        | CmdOutcome.run code out errS =>
          if code ≠ 0 then
            (echo ++ [Event.invoked srcname args,
              Event.procError srcname args errS], LoopCtl.cont)
          else
            match onCmd with
            | some h =>
              let w := h srcname out
              match w.2 with
              | some m =>
                (echo ++ [Event.invoked srcname args] ++ w.1 ++
                  [Event.printedErr m],
                 LoopCtl.earlyReturn (PyRes.tup false
                   (some ("Failed to perform util on " ++ srcname ++ ": "))))
              | none =>
                (echo ++ [Event.invoked srcname args] ++ w.1, LoopCtl.cont)
            | none =>
              (echo ++ [Event.invoked srcname args] ++
                (if verbose then [Event.printedOut out] else []),
               LoopCtl.cont)
end

/-! ### Output handlers (src/mini.py lines 167-172, 187-192, 207-223,
237-239) -/

/-- `write_file` of `minify_css` (lines 167-172): derive
`fnp[0] + '.min' + fnp[1]` via `os.path.splitext` and write
`str(compressed_content)` with `open(..., 'w')`. -/
def minifyCssOnCmd : Handler := fun filename content =>
  let fnp := splitext filename
  ([Event.wrote (fnp.1 ++ ".min" ++ fnp.2) (pyStr content)], none)

/-- `write_file` of `minify_js` (lines 187-192): textually identical to the
one in `minify_css`. -/
def minifyJsOnCmd : Handler := fun filename content =>
  let fnp := splitext filename
  ([Event.wrote (fnp.1 ++ ".min" ++ fnp.2) (pyStr content)], none)

/-- `write_handler` of `minify_html` (lines 207-223) at
`fix_django = False`, the only value the program ever uses (`build` calls
`minify_html` without the optional flag): `content.splitlines()` is written
line by line to `open(filename, 'w')` — the original path, with the
line-break characters dropped by `splitlines`.  The optional Django
post-process branch (`fix_django = True`) only rewrites the line contents;
it never changes the destination path. -/
def minifyHtmlOnCmd : Handler := fun filename content =>
  ([Event.wrote filename (String.join (pySplitlines content))], none)

/-- `write_file` of `gzip_content` (lines 237-239): write the raw bytes to
`filename + '.gz'` with `open(..., 'wb')`. -/
def gzipOnCmd : Handler := fun filename content =>
  ([Event.wrote (filename ++ ".gz") content], none)

/-! ### File-store semantics of the event trace -/

/-- Contents of files on disk, by path. -/
def FileStore := String → Option String

/-- Apply one event to the store: a `wrote` event replaces the file's
contents (truncating write), everything else leaves the store unchanged. -/
def applyEvent (store : FileStore) : Event → FileStore
  | Event.wrote p c => fun q => if q = p then some c else store q
  | _ => store

/-- Apply a trace of events, in order. -/
def applyEvents (store : FileStore) : List Event → FileStore
  | [] => store
  | ev :: rest => applyEvents (applyEvent store ev) rest

/-! ### Stage wrappers and the orchestrator (src/mini.py lines 166-296)

Each stage calls `_perform_utilproc`, unpacks `(succeded, err)` and raises
`Exception(err)` when not succeeded.  Unpacking a Python `None` raises
`TypeError`; an `IOError` escaping `_perform_utilproc` skips the unpacking
entirely and escapes the stage. -/

/-- How a stage call terminates abnormally, if it does. -/
inductive StageExn where
  /-- `raise Exception(err)` from the stage wrapper. -/
  | raised (msg : Option String)
  /-- an `IOError`/`OSError` escaping `_perform_utilproc` uncaught. -/
  | ioErr (msg : String)
  /-- `TypeError`: unpacking the `None` returned when `include` is unset. -/
  | typeErr
deriving DecidableEq, Repr

/-- Unpack `(succeded, err) = _perform_utilproc(...)` and
`if not succeded: raise Exception(err)`. -/
def stageFinish : List Event × PyRes → List Event × Option StageExn
  | (evs, PyRes.tup true _) => (evs, none)
  | (evs, PyRes.tup false m) => (evs, some (StageExn.raised m))
  | (evs, PyRes.noneRet) => (evs, some StageExn.typeErr)
  | (evs, PyRes.exn m) => (evs, some (StageExn.ioErr m))

/-- `UTIL_JOIN` (line 37): `os.path.join(UTIL_ROOT, *args)`. -/
def UTIL_JOIN (utilRoot name : String) : String := pyJoin utilRoot name

/-- `MINIFY_CSS` (line 40). -/
def MINIFY_CSS (utilRoot : String) : List String :=
  ["java", "-jar", UTIL_JOIN utilRoot "yuicompressor.jar", "{FILENAME}"]

/-- `MINIFY_HTML` (line 41). -/
def MINIFY_HTML (utilRoot : String) : List String :=
  ["java", "-jar", UTIL_JOIN utilRoot "htmlcompressor.jar", "{FILENAME}"]

/-- `MINIFY_JS` (line 42). -/
def MINIFY_JS : List String := ["uglifyjs", "{FILENAME}"]

/-- `COMPRESS_FILE` (line 43). -/
def COMPRESS_FILE : List String := ["gzip", "-c", "{FILENAME}"]

/-- `IGNORE_FILES` (line 38): defined at module level, passed to `build`. -/
def IGNORE_FILES : List String := [".DS_Store", "*.pyc", "tmp*", "*.xcf"]

/-- `minify_css(src, util_dir, verbose)` (lines 166-183).  `util_dir` is
accepted and unused, exactly as in the source; the command template uses
the module-level `UTIL_ROOT` (modelled as `utilRoot`). -/
def minify_css (exec : List String → CmdOutcome) (utilRoot : String)
    (listing : FSListing) (src util_dir : String) (verbose : Bool) :
    List Event × Option StageExn :=
  let _ := util_dir
  stageFinish (performUtilproc exec (MINIFY_CSS utilRoot)
    (some minifyCssOnCmd) (some ["*.css"])
    (some ["*.min.*", "lib", "libs", "vendor"]) verbose src listing)

/-- `minify_js(src, util_dir, verbose)` (lines 186-203). -/
def minify_js (exec : List String → CmdOutcome) (utilRoot : String)
    (listing : FSListing) (src util_dir : String) (verbose : Bool) :
    List Event × Option StageExn :=
  let _ := util_dir
  let _ := utilRoot
  stageFinish (performUtilproc exec MINIFY_JS
    (some minifyJsOnCmd) (some ["*.js"])
    (some ["*.min.*", "lib", "libs", "vendor"]) verbose src listing)

/-- `minify_html(src, util_dir, verbose, fix_django=False)` (lines
206-233): include `['*.html']` and no `ignore` argument at all — the
`ignore=None` default applies. -/
def minify_html (exec : List String → CmdOutcome) (utilRoot : String)
    (listing : FSListing) (src util_dir : String) (verbose : Bool) :
    List Event × Option StageExn :=
  let _ := util_dir
  stageFinish (performUtilproc exec (MINIFY_HTML utilRoot)
    (some minifyHtmlOnCmd) (some ["*.html"]) none verbose src listing)

/-- `gzip_content(src, util_dir, include_files=None, ignore=None, verbose)`
(lines 236-254): a falsy `ignore` becomes `[]`, then `'*.gz'` is appended. -/
def gzip_content (exec : List String → CmdOutcome) (listing : FSListing)
    (src util_dir : String) (include_files : Option (List String))
    (ignore : Option (List String)) (verbose : Bool) :
    List Event × Option StageExn :=
  let _ := util_dir
  let ignoreFull :=
    (match ignore with
     | none => []
     | some l => l) ++ ["*.gz"]
  stageFinish (performUtilproc exec COMPRESS_FILE
    (some gzipOnCmd) include_files (some ignoreFull) verbose src listing)

/-- `build(static_path, util_dir, ignore, verbose)` (lines 257-296,
without the `@timed` wrapper, which only prints elapsed wall-clock time):
six stages in sequence, each preceded by a `cprint.info`; a stage's
exception aborts the remaining stages.  The `ignore` parameter is accepted
and never used, exactly as in the source. -/
def build (exec : List String → CmdOutcome) (utilRoot : String)
    (listing : FSListing) (static_path util_dir : String)
    (ignore : List String) (verbose : Bool) :
    List Event × Option StageExn :=
  let _ := ignore
  let s1 := minify_html exec utilRoot listing static_path util_dir verbose
  let evs1 := Event.info "Minifying html" :: s1.1
  match s1.2 with
  | some ex => (evs1, some ex)
  | none =>
    let s2 := minify_css exec utilRoot listing static_path util_dir verbose
    let evs2 := evs1 ++ Event.info "Minifying stylesheets" :: s2.1
    match s2.2 with
    | some ex => (evs2, some ex)
    | none =>
      let s3 := minify_js exec utilRoot listing static_path util_dir verbose
      let evs3 := evs2 ++ Event.info "Minifying scripts" :: s3.1
      match s3.2 with
      | some ex => (evs3, some ex)
      | none =>
        let s4 := gzip_content exec listing static_path util_dir
          (some ["*.css"]) none verbose
        let evs4 := evs3 ++ Event.info "GZipping css" :: s4.1
        match s4.2 with
        | some ex => (evs4, some ex)
        | none =>
          let s5 := gzip_content exec listing static_path util_dir
            (some ["*.js"]) none verbose
          let evs5 := evs4 ++ Event.info "GZipping js" :: s5.1
          match s5.2 with
          | some ex => (evs5, some ex)
          | none =>
            let s6 := gzip_content exec listing static_path util_dir
              (some ["*.jpg", "*.png", "*.gif", "*.bmp", "*.ico"]) none
              verbose
            let evs6 := evs5 ++ Event.info "GZipping images" :: s6.1
            (evs6, s6.2)

/-! ### Environment predicates -/

/-- Did the subprocess actually run (as opposed to the spawn raising)? -/
def CmdOutcome.isRun : CmdOutcome → Bool
  | CmdOutcome.spawnFail _ => false
  | CmdOutcome.run _ _ _ => true

/-- The optional handler never raises `IOError` (disk writes succeed). -/
def OnCmdOk : Option Handler → Prop
  | none => True
  | some h => ∀ p c, (h p c).2 = none

mutual
/-- Every directory in the listing (recursively) can be listed. -/
def FSListing.okAll : FSListing → Bool
  | FSListing.fail => false
  | FSListing.ok es => es.allListed

/-- Every directory among the entries (recursively) can be listed. -/
def FSEntries.allListed : FSEntries → Bool
  | FSEntries.nil => true
  | FSEntries.cons e rest => e.allListed && rest.allListed

/-- Every directory inside the entry (recursively) can be listed. -/
def FSTree.allListed : FSTree → Bool
  | FSTree.file _ => true
  | FSTree.dir _ l => l.okAll
end

/-! ### Walk success in a fault-free environment

When every directory can be listed, every command spawns (any exit code),
and the handler never raises, the walk returns `(True, None)` — non-zero
exit statuses never turn the outcome into a failure. -/

mutual
theorem walkSuccess_listing (exec : List String → CmdOutcome)
    (cmdArgs : List String) (onCmd : Option Handler) (inc : List String)
    (ignoreArg : Option (List String)) (v : Bool)
    (hexec : ∀ args, (exec args).isRun = true) (honc : OnCmdOk onCmd)
    (l : FSListing) (hl : l.okAll = true) (src : String) :
    (performUtilproc exec cmdArgs onCmd (some inc) ignoreArg v src l).2 =
      PyRes.tup true none := by
  match l with
  | FSListing.fail => simp [FSListing.okAll] at hl
  | FSListing.ok es =>
    have hes : es.allListed = true := hl
    simp only [performUtilproc]
    exact walkSuccess_entries exec cmdArgs onCmd inc ignoreArg v hexec honc
      es hes src _ _

theorem walkSuccess_entries (exec : List String → CmdOutcome)
    (cmdArgs : List String) (onCmd : Option Handler) (inc : List String)
    (ignoreArg : Option (List String)) (v : Bool)
    (hexec : ∀ args, (exec args).isRun = true) (honc : OnCmdOk onCmd)
    (es : FSEntries) (hes : es.allListed = true)
    (src : String) (iN gN : List String) :
    (performLoop exec cmdArgs onCmd (some inc) ignoreArg v src iN gN es).2 =
      PyRes.tup true none := by
  match es with
  | FSEntries.nil => simp [performLoop]
  | FSEntries.cons e rest =>
    have hboth := hes
    simp only [FSEntries.allListed, Bool.and_eq_true] at hboth
    have hctl := walkSuccess_one exec cmdArgs onCmd inc ignoreArg v hexec honc
      e hboth.1 src iN gN
    simp only [performLoop, hctl]
    exact walkSuccess_entries exec cmdArgs onCmd inc ignoreArg v hexec honc
      rest hboth.2 src iN gN

theorem walkSuccess_one (exec : List String → CmdOutcome)
    (cmdArgs : List String) (onCmd : Option Handler) (inc : List String)
    (ignoreArg : Option (List String)) (v : Bool)
    (hexec : ∀ args, (exec args).isRun = true) (honc : OnCmdOk onCmd)
    (e : FSTree) (he : e.allListed = true)
    (src : String) (iN gN : List String) :
    (processOne exec cmdArgs onCmd (some inc) ignoreArg v src iN gN e).2 =
      LoopCtl.cont := by
  match e with
  | FSTree.dir n l =>
    have hl : l.okAll = true := he
    have hrec := walkSuccess_listing exec cmdArgs onCmd inc ignoreArg v hexec
      honc l hl (pyJoin src n)
    simp only [processOne, FSTree.name, FSTree.isDir]
    split
    · rfl
    · split
      · rfl
      · simp only [hrec]
  | FSTree.file n =>
    simp only [processOne, FSTree.name, FSTree.isDir]
    split
    · rfl
    · split
      · rfl
      · have hr := hexec (substArgs cmdArgs (pyJoin src n))
        match hx : exec (substArgs cmdArgs (pyJoin src n)) with
        | CmdOutcome.spawnFail m => rw [hx] at hr; simp [CmdOutcome.isRun] at hr
        | CmdOutcome.run code out errS =>
          simp only [hx]
          split
          · rfl
          · match onCmd with
            | none => rfl
            | some h =>
              have hw : (h (pyJoin src n) out).2 = none := honc (pyJoin src n) out
              simp only [hw]
end


/-- Membership in a conditionally-empty list. -/
theorem mem_if_list {α : Type} (c : Prop) [Decidable c] (l : List α) (x : α) :
    (x ∈ if c then l else []) ↔ c ∧ x ∈ l := by
  split <;> simp_all

/-! ### Provenance of `wrote` events

Every write performed during a walk with handler `h` is one of the events
of `h q out` for some entry path `q` whose command ran with exit status `0`
and stdout `out` — the walk itself never writes. -/

mutual
theorem wroteFrom_listing (exec : List String → CmdOutcome)
    (cmdArgs : List String) (h : Handler) (incA ignA : Option (List String))
    (v : Bool) (l : FSListing) (src p c : String)
    (hmem : Event.wrote p c ∈
      (performUtilproc exec cmdArgs (some h) incA ignA v src l).1) :
    ∃ q out errS, exec (substArgs cmdArgs q) = CmdOutcome.run 0 out errS ∧
      Event.wrote p c ∈ (h q out).1 := by
  match incA with
  | none => simp [performUtilproc] at hmem
  | some inc =>
    match l with
    | FSListing.fail => simp [performUtilproc] at hmem
    | FSListing.ok es =>
      simp only [performUtilproc, List.mem_cons] at hmem
      rcases hmem with hbad | hmem
      · exact absurd hbad (by simp)
      · exact wroteFrom_entries exec cmdArgs h (some inc) ignA v es src _ _ p c hmem

theorem wroteFrom_entries (exec : List String → CmdOutcome)
    (cmdArgs : List String) (h : Handler) (incA ignA : Option (List String))
    (v : Bool) (es : FSEntries) (src : String) (iN gN : List String)
    (p c : String)
    (hmem : Event.wrote p c ∈
      (performLoop exec cmdArgs (some h) incA ignA v src iN gN es).1) :
    ∃ q out errS, exec (substArgs cmdArgs q) = CmdOutcome.run 0 out errS ∧
      Event.wrote p c ∈ (h q out).1 := by
  match es with
  | FSEntries.nil => simp [performLoop] at hmem
  | FSEntries.cons e rest =>
    rw [performLoop] at hmem
    split at hmem
    · exact wroteFrom_one exec cmdArgs h incA ignA v e src iN gN p c hmem
    · simp only [List.mem_append] at hmem
      rcases hmem with hmem | hmem
      · exact wroteFrom_one exec cmdArgs h incA ignA v e src iN gN p c hmem
      · exact wroteFrom_entries exec cmdArgs h incA ignA v rest src iN gN p c hmem

theorem wroteFrom_one (exec : List String → CmdOutcome)
    (cmdArgs : List String) (h : Handler) (incA ignA : Option (List String))
    (v : Bool) (e : FSTree) (src : String) (iN gN : List String)
    (p c : String)
    (hmem : Event.wrote p c ∈
      (processOne exec cmdArgs (some h) incA ignA v src iN gN e).1) :
    ∃ q out errS, exec (substArgs cmdArgs q) = CmdOutcome.run 0 out errS ∧
      Event.wrote p c ∈ (h q out).1 := by
  match e with
  | FSTree.dir n l =>
    rw [processOne] at hmem
    simp only [FSTree.name, FSTree.isDir] at hmem
    split at hmem
    · simp [mem_if_list] at hmem
    · split at hmem
      · simp [mem_if_list] at hmem
      · split at hmem
        · simp only [List.mem_append] at hmem
          rcases hmem with hmem | hbad
          · exact wroteFrom_listing exec cmdArgs h incA ignA v l _ p c hmem
          · simp at hbad
        · exact wroteFrom_listing exec cmdArgs h incA ignA v l _ p c hmem
  | FSTree.file n =>
    rw [processOne] at hmem
    simp only [FSTree.name, FSTree.isDir] at hmem
    split at hmem
    · simp [mem_if_list] at hmem
    · split at hmem
      · simp [mem_if_list] at hmem
      · split at hmem
        · simp [mem_if_list] at hmem
        · rename_i code out errS hx
          split at hmem
          · simp [mem_if_list] at hmem
          · rename_i hcode
            have hc0 : code = 0 := by omega
            subst hc0
            split at hmem
            · rename_i m hw
              simp only [List.mem_append, List.mem_cons, List.mem_singleton,
                mem_if_list] at hmem
              rcases hmem with ((hbad | hbad) | hmem) | hbad
              · exact absurd hbad.2 (by simp)
              · exact absurd hbad (by simp)
              · exact ⟨pyJoin src n, out, errS, hx, hmem⟩
              · exact absurd hbad (by simp)
            · simp only [List.mem_append, List.mem_cons, List.mem_singleton,
                mem_if_list] at hmem
              rcases hmem with (hbad | hbad) | hmem
              · exact absurd hbad.2 (by simp)
              · exact absurd hbad (by simp)
              · exact ⟨pyJoin src n, out, errS, hx, hmem⟩
end

/-! ### Provenance of `invoked` events

When both an include and an exclude set are given, and the handler only
performs writes (all four handlers of mini.py do), every command
invocation anywhere in the walk is on a path `d/n` whose entry name `n`
matches some include pattern and no exclude pattern. -/

/-- The optional handler's events are file writes only. -/
def HandlerWritesOnly : Option Handler → Prop
  | none => True
  | some h => ∀ q o ev, ev ∈ (h q o).1 → ∃ pp cc, ev = Event.wrote pp cc

mutual
theorem invokedFrom_listing (exec : List String → CmdOutcome)
    (cmdArgs : List String) (onCmd : Option Handler) (inc ign : List String)
    (v : Bool) (honly : HandlerWritesOnly onCmd)
    (l : FSListing) (src p : String) (a : List String)
    (hmem : Event.invoked p a ∈
      (performUtilproc exec cmdArgs onCmd (some inc) (some ign) v src l).1) :
    ∃ d n, p = pyJoin d n ∧ matchesAny inc n = true ∧
      matchesAny ign n = false := by
  match l with
  | FSListing.fail => simp [performUtilproc] at hmem
  | FSListing.ok es =>
    simp only [performUtilproc, List.mem_cons] at hmem
    rcases hmem with hbad | hmem
    · exact absurd hbad (by simp)
    · exact invokedFrom_entries exec cmdArgs onCmd inc ign v honly es es.names
        src (fun s hs => hs) p a hmem

theorem invokedFrom_entries (exec : List String → CmdOutcome)
    (cmdArgs : List String) (onCmd : Option Handler) (inc ign : List String)
    (v : Bool) (honly : HandlerWritesOnly onCmd)
    (es : FSEntries) (names : List String) (src : String)
    (hnames : ∀ s ∈ es.names, s ∈ names) (p : String) (a : List String)
    (hmem : Event.invoked p a ∈
      (performLoop exec cmdArgs onCmd (some inc) (some ign) v src
        (ignorePatterns inc names) (ignorePatterns ign names) es).1) :
    ∃ d n, p = pyJoin d n ∧ matchesAny inc n = true ∧
      matchesAny ign n = false := by
  match es with
  | FSEntries.nil => simp [performLoop] at hmem
  | FSEntries.cons e rest =>
    have hhead : e.name ∈ names :=
      hnames e.name (by simp [FSEntries.names])
    have htail : ∀ s ∈ rest.names, s ∈ names :=
      fun s hs => hnames s (by simp [FSEntries.names, hs])
    rw [performLoop] at hmem
    split at hmem
    · exact invokedFrom_one exec cmdArgs onCmd inc ign v honly e names src
        hhead p a hmem
    · simp only [List.mem_append] at hmem
      rcases hmem with hmem | hmem
      · exact invokedFrom_one exec cmdArgs onCmd inc ign v honly e names src
          hhead p a hmem
      · exact invokedFrom_entries exec cmdArgs onCmd inc ign v honly rest
          names src htail p a hmem

theorem invokedFrom_one (exec : List String → CmdOutcome)
    (cmdArgs : List String) (onCmd : Option Handler) (inc ign : List String)
    (v : Bool) (honly : HandlerWritesOnly onCmd)
    (e : FSTree) (names : List String) (src : String)
    (hname : e.name ∈ names) (p : String) (a : List String)
    (hmem : Event.invoked p a ∈
      (processOne exec cmdArgs onCmd (some inc) (some ign) v src
        (ignorePatterns inc names) (ignorePatterns ign names) e).1) :
    ∃ d n, p = pyJoin d n ∧ matchesAny inc n = true ∧
      matchesAny ign n = false := by
  match e with
  | FSTree.dir n l =>
    rw [processOne] at hmem
    simp only [FSTree.name, FSTree.isDir] at hmem
    split at hmem
    · simp [mem_if_list] at hmem
    · split at hmem
      · simp [mem_if_list] at hmem
      · split at hmem
        · simp only [List.mem_append] at hmem
          rcases hmem with hmem | hbad
          · exact invokedFrom_listing exec cmdArgs onCmd inc ign v honly l _
              p a hmem
          · simp at hbad
        · exact invokedFrom_listing exec cmdArgs onCmd inc ign v honly l _
            p a hmem
  | FSTree.file n =>
    have hn : FSTree.name (FSTree.file n) ∈ names := hname
    simp only [FSTree.name] at hn
    rw [processOne] at hmem
    simp only [FSTree.name, FSTree.isDir] at hmem
    split at hmem
    · simp [mem_if_list] at hmem
    · rename_i hnig
      have hignF : matchesAny ign n = false := by
        by_contra hT
        exact hnig ((mem_ignorePatterns ign names n).2
          ⟨hn, by revert hT; cases matchesAny ign n <;> simp⟩)
      split at hmem
      · simp [mem_if_list] at hmem
      · rename_i hninc
        have hincT : matchesAny inc n = true := by
          by_contra hF
          exact hninc ⟨by simp, fun hin =>
            hF ((mem_ignorePatterns inc names n).1 hin).2⟩
        have hpa : p = pyJoin src n := by
          split at hmem
          · simp [mem_if_list] at hmem
            exact hmem.1
          · split at hmem
            · simp [mem_if_list] at hmem
              exact hmem.1
            · split at hmem
              · rename_i hhh
                have honlyh : ∀ q o ev, ev ∈ (hhh q o).1 →
                    ∃ pp cc, ev = Event.wrote pp cc := honly
                split at hmem
                all_goals simp [mem_if_list] at hmem
                all_goals rcases hmem with hgood | hback
                · exact hgood.1
                · obtain ⟨pp, cc, hcc⟩ := honlyh _ _ _ hback
                  exact absurd hcc (by simp)
                · exact hgood.1
                · obtain ⟨pp, cc, hcc⟩ := honlyh _ _ _ hback
                  exact absurd hcc (by simp)
              · simp [mem_if_list] at hmem
                exact hmem.1
        exact ⟨src, n, hpa, hincT, hignF⟩
end

/-! ### Computation of `splitext` on paths of the form `name ++ "." ++ ext` -/

theorem lastIdx_notMem (c : Char) (l : List Char) (h : c ∉ l) :
    lastIdx c l = -1 := by
  induction l with
  | nil => rfl
  | cons x xs ih =>
    simp only [List.mem_cons, not_or] at h
    simp [lastIdx, ih h.2, h.1, Ne.symm h.1]

theorem lastIdx_lt_length (c : Char) (l : List Char) :
    lastIdx c l < (l.length : Int) := by
  induction l with
  | nil => simp [lastIdx]
  | cons x xs ih =>
    simp only [lastIdx, List.length_cons]
    split
    · push_cast
      omega
    · split <;> push_cast <;> omega

theorem lastIdx_neg_or (c : Char) (l : List Char) :
    lastIdx c l = -1 ∨ 0 ≤ lastIdx c l := by
  induction l with
  | nil => left; rfl
  | cons x xs ih =>
    simp only [lastIdx]
    split
    · right; omega
    · split
      · right; omega
      · left; rfl

theorem lastIdx_append_of_neg (c : Char) (a b : List Char)
    (h : lastIdx c b = -1) : lastIdx c (a ++ b) = lastIdx c a := by
  induction a with
  | nil => simpa using h
  | cons x xs ih =>
    simp only [List.cons_append, lastIdx, List.append_eq, ih]

theorem lastIdx_append_of_nonneg (c : Char) (a b : List Char)
    (h : 0 ≤ lastIdx c b) :
    lastIdx c (a ++ b) = (a.length : Int) + lastIdx c b := by
  induction a with
  | nil => simp
  | cons x xs ih =>
    simp only [List.cons_append, lastIdx, List.append_eq, ih, List.length_cons]
    split
    · push_cast
      omega
    · rename_i hcond
      exfalso
      omega

theorem splitextL_concat (name ext : List Char)
    (hdot : '.' ∉ ext) (hslash : '/' ∉ ext)
    (hbase : (basenameL name).any (fun ch => ch ≠ '.') = true) :
    splitextL (name ++ '.' :: ext) = (name, '.' :: ext) := by
  have hdotCons : lastIdx '.' ('.' :: ext) = 0 := by
    simp [lastIdx, lastIdx_notMem '.' ext hdot]
  have hslashCons : lastIdx '/' ('.' :: ext) = -1 := by
    simp [lastIdx, lastIdx_notMem '/' ext hslash]
  have hdotIdx : lastIdx '.' (name ++ '.' :: ext) = (name.length : Int) := by
    rw [lastIdx_append_of_nonneg '.' name ('.' :: ext) (by omega), hdotCons]
    omega
  have hsepIdx : lastIdx '/' (name ++ '.' :: ext) = lastIdx '/' name :=
    lastIdx_append_of_neg '/' name ('.' :: ext) hslashCons
  have hlt : lastIdx '/' name < (name.length : Int) := lastIdx_lt_length _ _
  have htoNat : ((name.length : Int)).toNat = name.length := by simp
  rw [splitextL, hdotIdx, hsepIdx]
  rw [if_pos (by omega : (name.length : Int) > lastIdx '/' name)]
  rw [htoNat, List.take_left, List.drop_left]
  have hmid : name.drop ((lastIdx '/' name) + 1).toNat = basenameL name := rfl
  rw [hmid, if_pos hbase]

theorem splitext_concat (name ext : String)
    (hdot : '.' ∉ ext.toList) (hslash : '/' ∉ ext.toList)
    (hbase : (basenameL name.toList).any (fun ch => ch ≠ '.') = true) :
    splitext (name ++ "." ++ ext) = (name, "." ++ ext) := by
  have hlist : (name ++ "." ++ ext).toList = name.toList ++ '.' :: ext.toList := by
    simp [String.toList, String.data_append]
  rw [splitext, hlist, splitextL_concat name.toList ext.toList hdot hslash hbase]
  refine Prod.ext ?_ ?_
  · cases name
    rfl
  · apply String.ext
    simp [String.data_append]

theorem strMin_assoc (name ext : String) :
    name ++ ".min" ++ ("." ++ ext) = name ++ ".min." ++ ext := by
  apply String.ext
  have hstep : ".min".data ++ ".".data = ".min.".data := by decide
  simp only [String.data_append, List.append_assoc, List.append_cancel_left_eq]
  rw [← List.append_assoc, hstep]

/-- `stageFinish` keeps the event trace unchanged. -/
theorem stageFinish_fst (r : List Event × PyRes) : (stageFinish r).1 = r.1 := by
  rcases r with ⟨evs, res⟩
  cases res with
  | noneRet => rfl
  | tup ok m => cases ok <;> rfl
  | exn m => rfl

/-- A single truncating write leaves exactly the written content at the
target path, whatever was there before. -/
theorem applyEvents_wrote (store : FileStore) (t c : String) :
    applyEvents store [Event.wrote t c] t = some c := by
  simp [applyEvents, applyEvent]

/-! ### Concrete environments used by counterexamples and witnesses -/

/-- A benign subprocess environment: every invocation exits 0. -/
def execOk : List String → CmdOutcome := fun _ => CmdOutcome.run 0 "out" ""

/-- A subprocess environment where every invocation exits 1 with stderr
`syntax error`. -/
def execErr : List String → CmdOutcome := fun _ => CmdOutcome.run 1 "" "syntax error"

/-- A subprocess environment where spawning always raises `OSError`. -/
def execSpawnFail : List String → CmdOutcome :=
  fun _ => CmdOutcome.spawnFail "No such file or directory"

/-- Subtree whose directory `b` cannot be listed. -/
def treeDeepFail : FSListing :=
  FSListing.ok (mkEntries [FSTree.dir "b" FSListing.fail])

/-- Root listing: a directory `a` (which contains the unlistable `b`) and a
sibling file `x.css` that comes after it. -/
def treeRootWithDeepFail : FSListing :=
  FSListing.ok (mkEntries [FSTree.dir "a" treeDeepFail, FSTree.file "x.css"])

/-! ### Claim C1 -/

/-- claim C1 counterexample: in the walk of `r` over a tree where `r/a/b`
cannot be listed, the recursive call on the subdirectory `r/a` returns the
failure WalkOutcome `(False, "Failed to perform util on r/a/b: ")`, yet the
enclosing call does not propagate it: it still processes the later sibling
`x.css` and returns the success WalkOutcome `(True, None)`. -/
theorem claim_C1_counterexample :
    (performUtilproc execOk ["tool", "{FILENAME}"] none (some ["*.css"])
        (some []) false "r/a" treeDeepFail).2 =
      PyRes.tup false (some "Failed to perform util on r/a/b: ")
    ∧ (performUtilproc execOk ["tool", "{FILENAME}"] none (some ["*.css"])
        (some []) false "r" treeRootWithDeepFail).2 = PyRes.tup true none
    ∧ Event.invoked "r/x.css" ["tool", "r/x.css"] ∈
        (performUtilproc execOk ["tool", "{FILENAME}"] none (some ["*.css"])
          (some []) false "r" treeRootWithDeepFail).1 := by
  refine ⟨by decide, by decide, by decide⟩

/-- claim C1 amended: when the recursive call on a non-ignored
subdirectory returns any `(bool, message)` WalkOutcome — failure included —
the enclosing loop discards that outcome entirely and continues with the
remaining siblings: the level's events are the recursion's events followed
by the rest of the loop, and the level's outcome is whatever the rest of
the loop produces.  (Only an exception raised by the recursive call — not
a returned failure — makes the parent abort; see C5.) -/
theorem claim_C1_amended (exec : List String → CmdOutcome)
    (cmdArgs : List String) (onCmd : Option Handler)
    (incA ignA : Option (List String)) (v : Bool) (src : String)
    (iN gN : List String) (n : String) (l : FSListing) (rest : FSEntries)
    (b : Bool) (m : Option String) (hign : n ∉ gN)
    (hrec : (performUtilproc exec cmdArgs onCmd incA ignA v
      (pyJoin src n) l).2 = PyRes.tup b m) :
    performLoop exec cmdArgs onCmd incA ignA v src iN gN
        (FSEntries.cons (FSTree.dir n l) rest) =
      ((performUtilproc exec cmdArgs onCmd incA ignA v (pyJoin src n) l).1 ++
        (performLoop exec cmdArgs onCmd incA ignA v src iN gN rest).1,
       (performLoop exec cmdArgs onCmd incA ignA v src iN gN rest).2) := by
  have hone : processOne exec cmdArgs onCmd incA ignA v src iN gN
      (FSTree.dir n l) =
      ((performUtilproc exec cmdArgs onCmd incA ignA v (pyJoin src n) l).1,
       LoopCtl.cont) := by
    rw [processOne]
    simp only [FSTree.name, FSTree.isDir]
    rw [if_neg hign]
    rw [if_neg (by simp : ¬(true = false ∧ n ∉ iN))]
    simp only [hrec]
  rw [performLoop, hone]

/-- claim C1 amended witness at the concrete C1 configuration. -/
theorem claim_C1_amended_witness :
    performLoop execOk ["tool", "{FILENAME}"] none (some ["*.css"]) (some [])
        false "r" (ignorePatterns ["*.css"] ["a", "x.css"])
        (ignorePatterns [] ["a", "x.css"])
        (FSEntries.cons (FSTree.dir "a" treeDeepFail)
          (mkEntries [FSTree.file "x.css"])) =
      ((performUtilproc execOk ["tool", "{FILENAME}"] none (some ["*.css"])
          (some []) false (pyJoin "r" "a") treeDeepFail).1 ++
        (performLoop execOk ["tool", "{FILENAME}"] none (some ["*.css"])
          (some []) false "r" (ignorePatterns ["*.css"] ["a", "x.css"])
          (ignorePatterns [] ["a", "x.css"])
          (mkEntries [FSTree.file "x.css"])).1,
       (performLoop execOk ["tool", "{FILENAME}"] none (some ["*.css"])
         (some []) false "r" (ignorePatterns ["*.css"] ["a", "x.css"])
         (ignorePatterns [] ["a", "x.css"])
         (mkEntries [FSTree.file "x.css"])).2) :=
  claim_C1_amended execOk ["tool", "{FILENAME}"] none (some ["*.css"])
    (some []) false "r" (ignorePatterns ["*.css"] ["a", "x.css"])
    (ignorePatterns [] ["a", "x.css"]) "a" treeDeepFail
    (mkEntries [FSTree.file "x.css"]) false
    (some "Failed to perform util on r/a/b: ") (by decide) (by decide)

/-! ### Claim C3 -/

/-- claim C3 counterexample: with `include = None` the call performs no
work (empty event trace: nothing listed, invoked or written) but it
returns Python `None` (a bare `return`), not the success WalkOutcome
`(True, None)` the claim asserts. -/
theorem claim_C3_counterexample :
    performUtilproc execOk ["tool", "{FILENAME}"] none none (some []) false
        "r" (FSListing.ok (mkEntries [FSTree.file "x.css"])) =
      ([], PyRes.noneRet)
    ∧ PyRes.noneRet ≠ PyRes.tup true none := by
  refine ⟨rfl, by decide⟩

/-- claim C3 amended: with `include = None` the call performs no work at
all — no directory listed, no command invoked, nothing written — and
returns `None` (not a WalkOutcome; a caller unpacking the result as a pair
would raise `TypeError`). -/
theorem claim_C3_amended (exec : List String → CmdOutcome)
    (cmdArgs : List String) (onCmd : Option Handler)
    (ignA : Option (List String)) (v : Bool) (src : String)
    (listing : FSListing) :
    performUtilproc exec cmdArgs onCmd none ignA v src listing =
      ([], PyRes.noneRet) := by
  cases listing <;> rfl

/-! ### Claim C5 -/

/-- claim C5 counterexample: a listing failure at the walk's root directory
does not produce a failure WalkOutcome at all — `os.listdir` is called
outside the `try`, so the `IOError` escapes the walk as an uncaught
exception. -/
theorem claim_C5_counterexample :
    performUtilproc execOk ["tool", "{FILENAME}"] none (some ["*.css"])
        (some []) false "r" FSListing.fail =
      ([Event.listed "r"], PyRes.exn "r")
    ∧ ¬ ∃ b m, (performUtilproc execOk ["tool", "{FILENAME}"] none
        (some ["*.css"]) (some []) false "r" FSListing.fail).2 =
      PyRes.tup b m := by
  refine ⟨by decide, ?_⟩
  rintro ⟨b, m, hm⟩
  have h : (performUtilproc execOk ["tool", "{FILENAME}"] none
      (some ["*.css"]) (some []) false "r" FSListing.fail).2 =
      PyRes.exn "r" := by decide
  rw [h] at hm
  exact absurd hm (by simp)

/-- claim C5 amended: an IO fault raised while processing an entry of the
current directory (here: the command spawn raising `OSError`) aborts the
loop without touching the remaining siblings and returns `(False, msg)`
with `msg` naming the entry (the underlying error text is dropped by the
format string); but a listing failure of the walk's root directory escapes
the walk as an exception rather than returning a WalkOutcome, and a
failure arising two or more levels down is swallowed by the caller that
discards the recursive result (see C1). -/
theorem claim_C5_amended :
    (∀ (exec : List String → CmdOutcome) (cmdArgs : List String)
       (onCmd : Option Handler) (inc : List String)
       (ignA : Option (List String)) (v : Bool) (src : String),
       performUtilproc exec cmdArgs onCmd (some inc) ignA v src
           FSListing.fail = ([Event.listed src], PyRes.exn src))
    ∧ (∀ (exec : List String → CmdOutcome) (cmdArgs : List String)
       (onCmd : Option Handler) (incA ignA : Option (List String))
       (src : String) (iN gN : List String) (n : String) (rest : FSEntries)
       (m : String), n ∉ gN → n ∈ iN →
       exec (substArgs cmdArgs (pyJoin src n)) = CmdOutcome.spawnFail m →
       performLoop exec cmdArgs onCmd incA ignA false src iN gN
           (FSEntries.cons (FSTree.file n) rest) =
         ([Event.invoked (pyJoin src n) (substArgs cmdArgs (pyJoin src n)),
           Event.printedErr m],
          PyRes.tup false
            (some ("Failed to perform util on " ++ pyJoin src n ++ ": ")))) := by
  constructor
  · intro exec cmdArgs onCmd inc ignA v src
    rfl
  · intro exec cmdArgs onCmd incA ignA src iN gN n rest m hign hinc hx
    have hone : processOne exec cmdArgs onCmd incA ignA false src iN gN
        (FSTree.file n) =
        ([Event.invoked (pyJoin src n) (substArgs cmdArgs (pyJoin src n)),
          Event.printedErr m],
         LoopCtl.earlyReturn (PyRes.tup false
           (some ("Failed to perform util on " ++ pyJoin src n ++ ": ")))) := by
      rw [processOne]
      simp only [FSTree.name, FSTree.isDir]
      rw [if_neg hign]
      rw [if_neg (by simp [hinc] : ¬(True ∧ n ∉ iN))]
      simp only [hx]
      simp
    rw [performLoop, hone]

/-- claim C5 amended witness: spawn failure on `r/x.css` aborts before the
sibling `y.css`, and a root listing failure escapes as an exception. -/
theorem claim_C5_witness :
    performUtilproc execOk ["tool", "{FILENAME}"] none (some ["*.css"])
        (some []) false "root" FSListing.fail =
      ([Event.listed "root"], PyRes.exn "root")
    ∧ performLoop execSpawnFail ["tool", "{FILENAME}"] none (some ["*.css"])
        (some []) false "r" ["x.css"] []
        (FSEntries.cons (FSTree.file "x.css")
          (mkEntries [FSTree.file "y.css"])) =
      ([Event.invoked (pyJoin "r" "x.css")
          (substArgs ["tool", "{FILENAME}"] (pyJoin "r" "x.css")),
        Event.printedErr "No such file or directory"],
       PyRes.tup false
         (some ("Failed to perform util on " ++ pyJoin "r" "x.css" ++ ": "))) :=
  ⟨claim_C5_amended.1 execOk ["tool", "{FILENAME}"] none ["*.css"] (some [])
    false "root",
   claim_C5_amended.2 execSpawnFail ["tool", "{FILENAME}"] none
    (some ["*.css"]) (some []) "r" ["x.css"] [] "x.css"
    (mkEntries [FSTree.file "y.css"]) "No such file or directory"
    (by decide) (by decide) (by decide)⟩

/-! ### Per-entry behaviour of the loop body -/

/-- An ignored entry (file or directory) is skipped: at most a verbose
warning, and the loop continues. -/
theorem processOne_ignored (exec : List String → CmdOutcome)
    (cmdArgs : List String) (onCmd : Option Handler)
    (incA ignA : Option (List String)) (v : Bool) (src : String)
    (iN gN : List String) (e : FSTree) (hg : e.name ∈ gN) :
    processOne exec cmdArgs onCmd incA ignA v src iN gN e =
      ((if v then [Event.warnIgnored (pyJoin src e.name)] else []),
       LoopCtl.cont) := by
  rw [processOne]
  rw [if_pos hg]

/-- A non-ignored file whose name is not in the include set is skipped:
at most a verbose warning, and the loop continues. -/
theorem processOne_file_excluded (exec : List String → CmdOutcome)
    (cmdArgs : List String) (onCmd : Option Handler)
    (incA ignA : Option (List String)) (v : Bool) (src : String)
    (iN gN : List String) (n : String) (hg : n ∉ gN) (hi : n ∉ iN) :
    processOne exec cmdArgs onCmd incA ignA v src iN gN (FSTree.file n) =
      ((if v then [Event.warnExcluded (pyJoin src n)] else []),
       LoopCtl.cont) := by
  rw [processOne]
  simp only [FSTree.name, FSTree.isDir]
  rw [if_neg hg, if_pos ⟨trivial, hi⟩]

/-- A non-ignored, included file always has the command invoked on it
(whatever the spawn, exit status or handler then do). -/
theorem processOne_file_invoked (exec : List String → CmdOutcome)
    (cmdArgs : List String) (onCmd : Option Handler)
    (incA ignA : Option (List String)) (v : Bool) (src : String)
    (iN gN : List String) (n : String) (hg : n ∉ gN) (hi : n ∈ iN) :
    Event.invoked (pyJoin src n) (substArgs cmdArgs (pyJoin src n)) ∈
      (processOne exec cmdArgs onCmd incA ignA v src iN gN
        (FSTree.file n)).1 := by
  rw [processOne]
  simp only [FSTree.name, FSTree.isDir]
  rw [if_neg hg, if_neg (fun hc => hc.2 hi)]
  split
  · simp [mem_if_list]
  · split
    · simp [mem_if_list]
    · split
      · split <;> simp [mem_if_list]
      · simp [mem_if_list]

/-- A non-ignored directory is always descended into: the recursive call
lists it (the include set plays no role for directories). -/
theorem processOne_dir_descends (exec : List String → CmdOutcome)
    (cmdArgs : List String) (onCmd : Option Handler) (inc : List String)
    (ignA : Option (List String)) (v : Bool) (src : String)
    (iN gN : List String) (n : String) (l : FSListing) (hg : n ∉ gN) :
    Event.listed (pyJoin src n) ∈
      (processOne exec cmdArgs onCmd (some inc) ignA v src iN gN
        (FSTree.dir n l)).1 := by
  have hlst : Event.listed (pyJoin src n) ∈
      (performUtilproc exec cmdArgs onCmd (some inc) ignA v
        (pyJoin src n) l).1 := by
    cases l <;> simp [performUtilproc]
  rw [processOne]
  simp only [FSTree.name, FSTree.isDir]
  rw [if_neg hg, if_neg (by simp : ¬(true = false ∧ n ∉ iN))]
  split <;> simp [hlst]

/-! ### Claim C2 -/

/-- claim C2: at any directory level whose listed names are `names`, with
include set `inc` and exclude set `ign` (the walk computes the level's
filter sets as `ignorePatterns inc names` and `ignorePatterns ign names`),
when the loop processes an entry named `n`: a file entry has the transform
command invoked on it iff `n` matches at least one include pattern and no
exclude pattern; a directory entry is descended into (its `os.listdir` is
called by the recursive call) iff `n` matches no exclude pattern,
regardless of whether it matches any include pattern. -/
theorem claim_C2_theorem (exec : List String → CmdOutcome)
    (cmdArgs : List String) (onCmd : Option Handler) (v : Bool)
    (inc ign names : List String) (src n : String) (hmem : n ∈ names)
    (l : FSListing) :
    (Event.invoked (pyJoin src n) (substArgs cmdArgs (pyJoin src n)) ∈
        (processOne exec cmdArgs onCmd (some inc) (some ign) v src
          (ignorePatterns inc names) (ignorePatterns ign names)
          (FSTree.file n)).1
      ↔ (matchesAny inc n = true ∧ matchesAny ign n = false))
    ∧ (Event.listed (pyJoin src n) ∈
        (processOne exec cmdArgs onCmd (some inc) (some ign) v src
          (ignorePatterns inc names) (ignorePatterns ign names)
          (FSTree.dir n l)).1
      ↔ matchesAny ign n = false) := by
  have hgN : n ∈ ignorePatterns ign names ↔ matchesAny ign n = true := by
    rw [mem_ignorePatterns]
    simp [hmem]
  have hiN : n ∈ ignorePatterns inc names ↔ matchesAny inc n = true := by
    rw [mem_ignorePatterns]
    simp [hmem]
  constructor
  · by_cases hig : matchesAny ign n = true
    · rw [processOne_ignored exec cmdArgs onCmd (some inc) (some ign) v src
        _ _ (FSTree.file n) (by simpa [FSTree.name] using hgN.2 hig)]
      simp [mem_if_list, hig]
    · have hignF : matchesAny ign n = false := by
        revert hig; cases matchesAny ign n <;> simp
      have hmemg : n ∉ ignorePatterns ign names := fun h2 => hig (hgN.1 h2)
      by_cases hic : matchesAny inc n = true
      · simp only [hic, hignF, and_self, iff_true]
        exact processOne_file_invoked exec cmdArgs onCmd (some inc)
          (some ign) v src _ _ n hmemg (hiN.2 hic)
      · have hmemi : n ∉ ignorePatterns inc names := fun h2 => hic (hiN.1 h2)
        rw [processOne_file_excluded exec cmdArgs onCmd (some inc) (some ign)
          v src _ _ n hmemg hmemi]
        simp [mem_if_list, hic]
  · by_cases hig : matchesAny ign n = true
    · rw [processOne_ignored exec cmdArgs onCmd (some inc) (some ign) v src
        _ _ (FSTree.dir n l) (by simpa [FSTree.name] using hgN.2 hig)]
      simp [mem_if_list, hig]
    · have hignF : matchesAny ign n = false := by
        revert hig; cases matchesAny ign n <;> simp
      have hmemg : n ∉ ignorePatterns ign names := fun h2 => hig (hgN.1 h2)
      simp only [hignF, iff_true]
      exact processOne_dir_descends exec cmdArgs onCmd inc (some ign) v src
        _ _ n l hmemg

/-- claim C2 witness at a concrete level: names `a.css`, `a.min.css`,
`sub`; include `*.css`; exclude `*.min.*`. -/
theorem claim_C2_witness :
    (Event.invoked (pyJoin "r" "a.css")
        (substArgs ["tool", "{FILENAME}"] (pyJoin "r" "a.css")) ∈
        (processOne execOk ["tool", "{FILENAME}"] none (some ["*.css"])
          (some ["*.min.*"]) false "r"
          (ignorePatterns ["*.css"] ["a.css", "a.min.css", "sub"])
          (ignorePatterns ["*.min.*"] ["a.css", "a.min.css", "sub"])
          (FSTree.file "a.css")).1
      ↔ (matchesAny ["*.css"] "a.css" = true ∧
          matchesAny ["*.min.*"] "a.css" = false))
    ∧ (Event.listed (pyJoin "r" "a.css") ∈
        (processOne execOk ["tool", "{FILENAME}"] none (some ["*.css"])
          (some ["*.min.*"]) false "r"
          (ignorePatterns ["*.css"] ["a.css", "a.min.css", "sub"])
          (ignorePatterns ["*.min.*"] ["a.css", "a.min.css", "sub"])
          (FSTree.dir "a.css" (FSListing.ok FSEntries.nil))).1
      ↔ matchesAny ["*.min.*"] "a.css" = false) :=
  claim_C2_theorem execOk ["tool", "{FILENAME}"] none false ["*.css"]
    ["*.min.*"] ["a.css", "a.min.css", "sub"] "r" "a.css" (by decide)
    (FSListing.ok FSEntries.nil)

/-! ### Claim C4 -/

/-- claim C4: a file whose command exits non-zero has the error reported —
path, full argument vector and captured stderr (the `procError` event) —
nothing written for it (its events are exactly the invocation and the
report), and the loop continues with the next entry; and in an environment
whose only faults are non-zero exit statuses (every directory listable,
every spawn succeeds, the handler never raises) the walk's overall
WalkOutcome is still the success `(True, None)`. -/
theorem claim_C4_theorem :
    (∀ (exec : List String → CmdOutcome) (cmdArgs : List String)
       (onCmd : Option Handler) (incA ignA : Option (List String))
       (src : String) (iN gN : List String) (n : String) (code : Int)
       (out errS : String), n ∉ gN → n ∈ iN →
       exec (substArgs cmdArgs (pyJoin src n)) = CmdOutcome.run code out errS →
       code ≠ 0 →
       processOne exec cmdArgs onCmd incA ignA false src iN gN
           (FSTree.file n) =
         ([Event.invoked (pyJoin src n) (substArgs cmdArgs (pyJoin src n)),
           Event.procError (pyJoin src n) (substArgs cmdArgs (pyJoin src n))
             errS],
          LoopCtl.cont))
    ∧ (∀ (exec : List String → CmdOutcome) (cmdArgs : List String)
       (onCmd : Option Handler) (inc : List String)
       (ignA : Option (List String)) (v : Bool) (l : FSListing)
       (src : String),
       (∀ args, (exec args).isRun = true) → OnCmdOk onCmd →
       l.okAll = true →
       (performUtilproc exec cmdArgs onCmd (some inc) ignA v src l).2 =
         PyRes.tup true none) := by
  constructor
  · intro exec cmdArgs onCmd incA ignA src iN gN n code out errS hign hinc
      hx hcode
    rw [processOne]
    simp only [FSTree.name, FSTree.isDir]
    rw [if_neg hign, if_neg (fun hc => hc.2 hinc)]
    simp only [hx]
    rw [if_pos hcode]
    simp
  · intro exec cmdArgs onCmd inc ignA v l src hexec honc hl
    exact walkSuccess_listing exec cmdArgs onCmd inc ignA v hexec honc l hl
      src

/-- claim C4 witness: the spec's scenario — tree `{x.js}`, tool exits 1
with stderr `syntax error`: the error is reported with path, argv and
stderr, nothing is written, the loop continues, and the walk still returns
`(True, None)`. -/
theorem claim_C4_witness :
    processOne execErr ["uglifyjs", "{FILENAME}"] none (some ["*.js"])
        (some []) false "r" ["x.js"] [] (FSTree.file "x.js") =
      ([Event.invoked (pyJoin "r" "x.js")
          (substArgs ["uglifyjs", "{FILENAME}"] (pyJoin "r" "x.js")),
        Event.procError (pyJoin "r" "x.js")
          (substArgs ["uglifyjs", "{FILENAME}"] (pyJoin "r" "x.js"))
          "syntax error"],
       LoopCtl.cont)
    ∧ (performUtilproc execErr ["uglifyjs", "{FILENAME}"] none
        (some ["*.js"]) (some []) false "r"
        (FSListing.ok (mkEntries [FSTree.file "x.js"]))).2 =
      PyRes.tup true none :=
  ⟨claim_C4_theorem.1 execErr ["uglifyjs", "{FILENAME}"] none
    (some ["*.js"]) (some []) "r" ["x.js"] [] "x.js" 1 "" "syntax error"
    (by decide) (by decide) rfl (by decide),
   claim_C4_theorem.2 execErr ["uglifyjs", "{FILENAME}"] none ["*.js"]
    (some []) false (FSListing.ok (mkEntries [FSTree.file "x.js"])) "r"
    (fun _ => rfl) trivial (by decide)⟩

/-! ### Claim C6 -/

/-- Subprocess environment for the HTML stage examples: minified output
containing a newline. -/
def execHtml : List String → CmdOutcome :=
  fun _ => CmdOutcome.run 0 "<p>hi</p>\nrest" ""

/-- Tree with one HTML file. -/
def treeHtml : FSListing := FSListing.ok (mkEntries [FSTree.file "a.html"])

/-- Disk contents before the HTML stage: the original file exists. -/
def storeHtml : FileStore :=
  fun q => if q = "r/a.html" then some "ORIGINAL" else none

/-- claim C6 counterexample: the HTML minify stage does not write to
`r/a.min.html` (still absent afterwards); it overwrites the original
`r/a.html`, and with the line break of the captured output dropped —
not the captured output verbatim at a derived `.min` path. -/
theorem claim_C6_counterexample :
    applyEvents storeHtml
        (minify_html execHtml "u" treeHtml "r" "ud" false).1 "r/a.html" =
      some "<p>hi</p>rest"
    ∧ applyEvents storeHtml
        (minify_html execHtml "u" treeHtml "r" "ud" false).1 "r/a.min.html" =
      none := by
  refine ⟨by decide, by decide⟩

/-- claim C6 amended: every write of the HTML minify stage goes to the
original entry path itself (overwriting the original file; no `.min.ext`
sibling is derived), and the written contents are the captured stdout with
its line-break characters dropped (`splitlines` then concatenation). -/
theorem claim_C6_amended (exec : List String → CmdOutcome)
    (utilRoot : String) (listing : FSListing) (src util_dir : String)
    (v : Bool) (p c : String)
    (hmem : Event.wrote p c ∈
      (minify_html exec utilRoot listing src util_dir v).1) :
    ∃ q out errS,
      exec (substArgs (MINIFY_HTML utilRoot) q) = CmdOutcome.run 0 out errS ∧
      p = q ∧ c = String.join (pySplitlines out) := by
  simp only [minify_html] at hmem
  rw [stageFinish_fst] at hmem
  obtain ⟨q, out, errS, hx, hw⟩ := wroteFrom_listing exec
    (MINIFY_HTML utilRoot) minifyHtmlOnCmd (some ["*.html"]) none v listing
    src p c hmem
  simp only [minifyHtmlOnCmd, List.mem_singleton] at hw
  obtain ⟨hp, hc⟩ := Event.wrote.inj hw
  exact ⟨q, out, errS, hx, hp, hc⟩

/-- claim C6 amended witness at the concrete HTML stage run. -/
theorem claim_C6_witness :
    ∃ q out errS,
      execHtml (substArgs (MINIFY_HTML "u") q) = CmdOutcome.run 0 out errS ∧
      "r/a.html" = q ∧
      "<p>hi</p>rest" = String.join (pySplitlines out) :=
  claim_C6_amended execHtml "u" treeHtml "r" "ud" false "r/a.html"
    "<p>hi</p>rest" (by decide)

/-! ### Claim C7 -/

/-- Tree with one already-minified HTML file. -/
def treeMinHtml : FSListing :=
  FSListing.ok (mkEntries [FSTree.file "a.min.html"])

/-- claim C7 counterexample: `a.min.html` matches `*.min.*`, yet the HTML
minify stage — which passes no exclude set at all — still invokes the
transform command on it. -/
theorem claim_C7_counterexample :
    matchesAny ["*.min.*", "lib", "libs", "vendor"] "a.min.html" = true
    ∧ Event.invoked "r/a.min.html"
        ["java", "-jar", "u/htmlcompressor.jar", "r/a.min.html"] ∈
      (minify_html execOk "u" treeMinHtml "r" "ud" false).1 := by
  refine ⟨by decide, by decide⟩

/-- claim C7 amended: the CSS and JS minify stages run with the exclude
set `*.min.*`, `lib`, `libs`, `vendor` — every command invocation in those
stages is on an entry name matching the stage's include pattern and none
of those exclude patterns; the HTML minify stage passes no exclude set, so
nothing is excluded there (see the counterexample). -/
theorem claim_C7_amended :
    (∀ (exec : List String → CmdOutcome) (utilRoot : String)
       (listing : FSListing) (src util_dir : String) (v : Bool) (p : String)
       (a : List String),
       Event.invoked p a ∈
         (minify_css exec utilRoot listing src util_dir v).1 →
       ∃ d n, p = pyJoin d n ∧ matchesAny ["*.css"] n = true ∧
         matchesAny ["*.min.*", "lib", "libs", "vendor"] n = false)
    ∧ (∀ (exec : List String → CmdOutcome) (utilRoot : String)
       (listing : FSListing) (src util_dir : String) (v : Bool) (p : String)
       (a : List String),
       Event.invoked p a ∈
         (minify_js exec utilRoot listing src util_dir v).1 →
       ∃ d n, p = pyJoin d n ∧ matchesAny ["*.js"] n = true ∧
         matchesAny ["*.min.*", "lib", "libs", "vendor"] n = false) := by
  constructor
  · intro exec utilRoot listing src util_dir v p a hmem
    simp only [minify_css] at hmem
    rw [stageFinish_fst] at hmem
    refine invokedFrom_listing exec (MINIFY_CSS utilRoot)
      (some minifyCssOnCmd) ["*.css"] ["*.min.*", "lib", "libs", "vendor"]
      v ?_ listing src p a hmem
    intro q o ev hev
    simp only [minifyCssOnCmd, List.mem_singleton] at hev
    exact ⟨_, _, hev⟩
  · intro exec utilRoot listing src util_dir v p a hmem
    simp only [minify_js] at hmem
    rw [stageFinish_fst] at hmem
    refine invokedFrom_listing exec MINIFY_JS
      (some minifyJsOnCmd) ["*.js"] ["*.min.*", "lib", "libs", "vendor"]
      v ?_ listing src p a hmem
    intro q o ev hev
    simp only [minifyJsOnCmd, List.mem_singleton] at hev
    exact ⟨_, _, hev⟩

/-- claim C7 amended witness: a concrete CSS-stage invocation. -/
theorem claim_C7_witness :
    ∃ d n, "r/b.css" = pyJoin d n ∧ matchesAny ["*.css"] n = true ∧
      matchesAny ["*.min.*", "lib", "libs", "vendor"] n = false :=
  claim_C7_amended.1 execOk "u"
    (FSListing.ok (mkEntries [FSTree.file "b.css"])) "r" "ud" false
    "r/b.css" ["java", "-jar", "u/yuicompressor.jar", "r/b.css"] (by decide)

/-! ### Claim C8 -/

/-- claim C8: for an input path of the form `name.ext` (extension free of
dots and slashes, basename not entirely dots) the CSS and JS minify
handlers write to exactly `name.min.ext`; for any input path `p` the gzip
handler writes to exactly `p + ".gz"`; in both cases a truncating write
leaves exactly the new content at the derived path, whatever was on disk
before (overwrite, not append). -/
theorem claim_C8_theorem (name ext content p cgz : String)
    (store store2 : FileStore)
    (hdot : '.' ∉ ext.toList) (hslash : '/' ∉ ext.toList)
    (hbase : (basenameL name.toList).any (fun ch => ch ≠ '.') = true) :
    minifyCssOnCmd (name ++ "." ++ ext) content =
      ([Event.wrote (name ++ ".min." ++ ext) content], none)
    ∧ minifyJsOnCmd (name ++ "." ++ ext) content =
      ([Event.wrote (name ++ ".min." ++ ext) content], none)
    ∧ gzipOnCmd p cgz = ([Event.wrote (p ++ ".gz") cgz], none)
    ∧ applyEvents store (minifyCssOnCmd (name ++ "." ++ ext) content).1
        (name ++ ".min." ++ ext) = some content
    ∧ applyEvents store2 (gzipOnCmd p cgz).1 (p ++ ".gz") = some cgz := by
  have hsp := splitext_concat name ext hdot hslash hbase
  have hcss : minifyCssOnCmd (name ++ "." ++ ext) content =
      ([Event.wrote (name ++ ".min." ++ ext) content], none) := by
    simp only [minifyCssOnCmd, hsp, pyStr]
    rw [strMin_assoc]
  have hjs : minifyJsOnCmd (name ++ "." ++ ext) content =
      ([Event.wrote (name ++ ".min." ++ ext) content], none) := by
    simp only [minifyJsOnCmd, hsp, pyStr]
    rw [strMin_assoc]
  refine ⟨hcss, hjs, rfl, ?_, ?_⟩
  · rw [hcss]
    exact applyEvents_wrote store _ _
  · exact applyEvents_wrote store2 _ _

/-- claim C8 witness at `r/app.css` and `r/img.png`, with both target
files already present on disk (overwrite case). -/
theorem claim_C8_witness :
    minifyCssOnCmd ("r/app" ++ "." ++ "css") "MIN" =
      ([Event.wrote ("r/app" ++ ".min." ++ "css") "MIN"], none)
    ∧ minifyJsOnCmd ("r/app" ++ "." ++ "css") "MIN" =
      ([Event.wrote ("r/app" ++ ".min." ++ "css") "MIN"], none)
    ∧ gzipOnCmd "r/img.png" "GZ" =
      ([Event.wrote ("r/img.png" ++ ".gz") "GZ"], none)
    ∧ applyEvents (fun _ => some "STALE")
        (minifyCssOnCmd ("r/app" ++ "." ++ "css") "MIN").1
        ("r/app" ++ ".min." ++ "css") = some "MIN"
    ∧ applyEvents (fun _ => some "STALE")
        (gzipOnCmd "r/img.png" "GZ").1 ("r/img.png" ++ ".gz") = some "GZ" :=
  claim_C8_theorem "r/app" "css" "MIN" "r/img.png" "GZ"
    (fun _ => some "STALE") (fun _ => some "STALE") (by decide) (by decide)
    (by decide)

/-! ### Claim C9 -/

/-- claim C9: in the CSS and JS minify stages, every file written carries
exactly the captured stdout of the zero-exit subprocess invocation it came
from (Python 2 `str` on a byte string is the identity), at the derived
`.min` path. -/
theorem claim_C9_theorem :
    (∀ (exec : List String → CmdOutcome) (utilRoot : String)
       (listing : FSListing) (src util_dir : String) (v : Bool)
       (p c : String),
       Event.wrote p c ∈ (minify_css exec utilRoot listing src util_dir v).1 →
       ∃ q out errS,
         exec (substArgs (MINIFY_CSS utilRoot) q) =
           CmdOutcome.run 0 out errS ∧
         p = (splitext q).1 ++ ".min" ++ (splitext q).2 ∧ c = out)
    ∧ (∀ (exec : List String → CmdOutcome) (utilRoot : String)
       (listing : FSListing) (src util_dir : String) (v : Bool)
       (p c : String),
       Event.wrote p c ∈ (minify_js exec utilRoot listing src util_dir v).1 →
       ∃ q out errS,
         exec (substArgs MINIFY_JS q) = CmdOutcome.run 0 out errS ∧
         p = (splitext q).1 ++ ".min" ++ (splitext q).2 ∧ c = out) := by
  constructor
  · intro exec utilRoot listing src util_dir v p c hmem
    simp only [minify_css] at hmem
    rw [stageFinish_fst] at hmem
    obtain ⟨q, out, errS, hx, hw⟩ := wroteFrom_listing exec
      (MINIFY_CSS utilRoot) minifyCssOnCmd (some ["*.css"])
      (some ["*.min.*", "lib", "libs", "vendor"]) v listing src p c hmem
    simp only [minifyCssOnCmd, pyStr, List.mem_singleton] at hw
    obtain ⟨hp, hc⟩ := Event.wrote.inj hw
    exact ⟨q, out, errS, hx, hp, hc⟩
  · intro exec utilRoot listing src util_dir v p c hmem
    simp only [minify_js] at hmem
    rw [stageFinish_fst] at hmem
    obtain ⟨q, out, errS, hx, hw⟩ := wroteFrom_listing exec
      MINIFY_JS minifyJsOnCmd (some ["*.js"])
      (some ["*.min.*", "lib", "libs", "vendor"]) v listing src p c hmem
    simp only [minifyJsOnCmd, pyStr, List.mem_singleton] at hw
    obtain ⟨hp, hc⟩ := Event.wrote.inj hw
    exact ⟨q, out, errS, hx, hp, hc⟩

/-- Subprocess environment producing minified output `MIN`. -/
def execMin : List String → CmdOutcome := fun _ => CmdOutcome.run 0 "MIN" ""

/-- claim C9 witness at a concrete CSS stage run over `{app.css}`. -/
theorem claim_C9_witness :
    ∃ q out errS,
      execMin (substArgs (MINIFY_CSS "u") q) = CmdOutcome.run 0 out errS ∧
      "r/app.min.css" = (splitext q).1 ++ ".min" ++ (splitext q).2 ∧
      "MIN" = out :=
  claim_C9_theorem.1 execMin "u"
    (FSListing.ok (mkEntries [FSTree.file "app.css"])) "r" "ud" false
    "r/app.min.css" "MIN" (by decide)

/-! ### Claim C10 -/

/-- claim C10: `build` is independent of its `ignore` argument — for any
two values of it (for example the CLI's `IGNORE_FILES` list versus the
empty list) and otherwise identical inputs it performs exactly the same
event trace (walks, invocations, writes) and terminates the same way: the
top-level ignore patterns are never applied to any stage. -/
theorem claim_C10_theorem (exec : List String → CmdOutcome)
    (utilRoot : String) (listing : FSListing)
    (static_path util_dir : String) (ignore1 ignore2 : List String)
    (v : Bool) :
    build exec utilRoot listing static_path util_dir ignore1 v =
      build exec utilRoot listing static_path util_dir ignore2 v := rfl
